import Mathlib

/-!
Verification of the partition-aware ingestion engine of the
binance-public-data database scripts.

The Python sources are shallowly embedded as Lean functions:

* `database_scripts/database_config.py`, class `UniversalPartitionManager`
  (`get_month_bounds_ms`, `create_monthly_partition`,
  `ensure_partition_for_timestamp`, `auto_create_partitions_for_data`);
* `database_scripts/data_importer.py`, class `DataImporter`
  (`prepare_data_by_type` null policy for `trading_metrics`,
  `batch_insert_data`, `import_directory`).

Conventions of the embedding:

* Epoch arithmetic is done in UTC.  The source builds naive
  `datetime(year, month, 1)` values and converts them with `.timestamp()`,
  and converts timestamps back with `datetime.fromtimestamp`; both use the
  process-local timezone, which we take to be UTC (the two conversions are
  mutually consistent for any fixed offset).  `datetime(y, m, 1).timestamp()*1000`
  is embedded as `86400000 *` (number of days between 1970-01-01 and the
  civil date `(y, m, 1)` in the proleptic Gregorian calendar), and
  `datetime.fromtimestamp(ms / 1000)` as the inverse civil-date computation
  `civilFromDays`.
* The PostgreSQL store is embedded explicitly: the set of existing
  partitions is a list of partition names, the rows of the destination
  table are a list of `Row`s, `CREATE TABLE ... PARTITION OF` raises a
  duplicate error when the name already exists, `INSERT ... ON CONFLICT DO
  NOTHING` skips rows whose uniqueness key is already present and raises a
  "no partition of relation" error for a row whose event time is covered by
  no existing partition.  Transactional behaviour of the single connection
  used by `batch_insert_data` is modelled: row inserts are pending until the
  final commit and are discarded when an error escapes to the outer
  `except`, while partition creation happens on separate pooled connections
  and commits immediately.
-/

namespace BinanceIngest

/-! ## Calendar model (UTC)

Embeds the `datetime` arithmetic used by `get_month_bounds_ms`
(`database_config.py` lines 131-142). -/

/-- Gregorian leap-year test. -/
def isLeap (y : Int) : Bool :=
  (y % 4 == 0 && y % 100 != 0) || (y % 400 == 0)

/-- Number of days of month `m` (1-12) of year `y`; `0` outside 1-12. -/
def daysInMonth (y : Int) : Nat → Nat
  | 1 => 31
  | 2 => if isLeap y then 29 else 28
  | 3 => 31
  | 4 => 30
  | 5 => 31
  | 6 => 30
  | 7 => 31
  | 8 => 31
  | 9 => 30
  | 10 => 31
  | 11 => 30
  | 12 => 31
  | _ => 0

/-- Days of year `y` that lie strictly before month `m`. -/
def daysBeforeMonth (y : Int) : Nat → Nat
  | 0 => 0
  | n + 1 => daysBeforeMonth y n + daysInMonth y n

/-- Number of leap years in `1, ..., y - 1` (proleptic Gregorian). -/
def leapsBefore (y : Int) : Int :=
  (y - 1) / 4 - (y - 1) / 100 + (y - 1) / 400

/-- Days from 1970-01-01 to the first day of year `y` (negative before 1970). -/
def daysSinceEpochOfYear (y : Int) : Int :=
  365 * (y - 1970) + (leapsBefore y - leapsBefore 1970)

/-- Days from 1970-01-01 to the civil date `(y, m, d)`:
the UTC embedding of `datetime(y, m, d).timestamp() / 86400`. -/
def daysFromCivil (y : Int) (m d : Nat) : Int :=
  daysSinceEpochOfYear y + daysBeforeMonth y m + ((d : Int) - 1)

/-- `UniversalPartitionManager.get_month_bounds_ms` (database_config.py
lines 131-142): start of the month and start of the following month, in
epoch milliseconds; December rolls to January of `year + 1`. -/
def get_month_bounds_ms (year : Int) (month : Nat) : Int × Int :=
  let start_ts := daysFromCivil year month 1 * 86400000
  let end_ts :=
    if month == 12 then daysFromCivil (year + 1) 1 1 * 86400000
    else daysFromCivil year (month + 1) 1 * 86400000
  (start_ts, end_ts)

/-- Arithmetic form of `isLeap = true`. -/
lemma isLeap_iff (y : Int) :
    isLeap y = true ↔ (y % 4 = 0 ∧ y % 100 ≠ 0) ∨ y % 400 = 0 := by
  simp [isLeap, Bool.or_eq_true, Bool.and_eq_true, beq_iff_eq, bne_iff_ne]

/-- One more leap day accrues across year `y` exactly when `y` is leap. -/
lemma leapsBefore_succ (y : Int) :
    leapsBefore (y + 1) = leapsBefore y + (if isLeap y then 1 else 0) := by
  have h1 : y + 1 - 1 = y := by ring
  rw [leapsBefore, leapsBefore, h1]
  split_ifs with h
  · rw [isLeap_iff] at h
    rcases h with ⟨h4, h100⟩ | h400
    · have h400 : y % 400 ≠ 0 := by omega
      omega
    · have h4 : y % 4 = 0 := by omega
      have h100 : y % 100 = 0 := by omega
      omega
  · rw [isLeap_iff] at h
    push_neg at h
    by_cases h4 : y % 4 = 0
    · have h100 : y % 100 = 0 := by tauto
      have h400 : y % 400 ≠ 0 := by tauto
      omega
    · have h100 : y % 100 ≠ 0 := by omega
      have h400 : y % 400 ≠ 0 := by omega
      omega

/-- The year after `y` starts 366 days later when `y` is a leap year,
365 days later otherwise. -/
lemma daysSinceEpochOfYear_succ (y : Int) :
    daysSinceEpochOfYear (y + 1)
      = daysSinceEpochOfYear y + (if isLeap y then 366 else 365) := by
  have h := leapsBefore_succ y
  rw [daysSinceEpochOfYear, daysSinceEpochOfYear, h]
  split_ifs <;> ring

lemma daysBeforeMonth_succ (y : Int) (n : Nat) :
    daysBeforeMonth y (n + 1) = daysBeforeMonth y n + daysInMonth y n := rfl

/-- The twelve months cover the whole year. -/
lemma daysBeforeMonth_12_add (y : Int) :
    (daysBeforeMonth y 12 : Int) + (daysInMonth y 12 : Int)
      = if isLeap y then 366 else 365 := by
  show ((daysBeforeMonth y 11 + daysInMonth y 11 : Nat) : Int)
      + (daysInMonth y 12 : Int) = _
  simp only [daysBeforeMonth, daysInMonth]
  split_ifs <;> norm_num

/-- Every month 1-12 has at least 28 days. -/
lemma daysInMonth_ge (y : Int) (m : Nat) (h1 : 1 ≤ m) (h2 : m ≤ 12) :
    28 ≤ daysInMonth y m := by
  interval_cases m <;> simp [daysInMonth] <;> split_ifs <;> omega

/-- The bounds of each month are exactly `daysInMonth` days apart. -/
lemma month_bounds_width (y : Int) (m : Nat) (h1 : 1 ≤ m) (h2 : m ≤ 12) :
    (get_month_bounds_ms y m).2
      = (get_month_bounds_ms y m).1 + (daysInMonth y m : Int) * 86400000 := by
  rcases Nat.lt_or_ge m 12 with hm | hm
  · have hne : (m == 12) = false := by
      simp only [beq_eq_false_iff_ne]; omega
    show (if m == 12 then daysFromCivil (y + 1) 1 1 * 86400000
        else daysFromCivil y (m + 1) 1 * 86400000)
      = daysFromCivil y m 1 * 86400000 + (daysInMonth y m : Int) * 86400000
    rw [hne]
    simp only [if_false, Bool.false_eq_true, daysFromCivil, daysBeforeMonth_succ]
    push_cast
    ring
  · have hm12 : m = 12 := by omega
    subst hm12
    show daysFromCivil (y + 1) 1 1 * 86400000
      = daysFromCivil y 12 1 * 86400000 + (daysInMonth y 12 : Int) * 86400000
    have hy := daysSinceEpochOfYear_succ y
    have hbm := daysBeforeMonth_12_add y
    have hstep : daysSinceEpochOfYear (y + 1)
        = daysSinceEpochOfYear y
          + ((daysBeforeMonth y 12 : Int) + (daysInMonth y 12 : Int)) := by
      rw [hy, hbm]
    have h1 : daysBeforeMonth (y + 1) 1 = 0 := rfl
    rw [daysFromCivil, daysFromCivil, hstep, h1]
    push_cast
    ring

/-- C2: for every year and month 1-12, `get_month_bounds_ms` is the
half-open interval from the first instant of the month (UTC, epoch ms) to
the first instant of the next month; the end exceeds the start, their
difference is the number of days of the month times 86,400,000 ms, and
December's end is January 1 of the following year. -/
theorem get_month_bounds_ms_correct (y : Int) (m : Nat)
    (h1 : 1 ≤ m) (h2 : m ≤ 12) :
    (get_month_bounds_ms y m).1 = daysFromCivil y m 1 * 86400000 ∧
    (get_month_bounds_ms y m).1 < (get_month_bounds_ms y m).2 ∧
    (get_month_bounds_ms y m).2 - (get_month_bounds_ms y m).1
      = (daysInMonth y m : Int) * 86400000 ∧
    (m = 12 → (get_month_bounds_ms y m).2 = (get_month_bounds_ms (y + 1) 1).1) := by
  have hw := month_bounds_width y m h1 h2
  refine ⟨rfl, ?_, by omega, ?_⟩
  · have hpos : 28 ≤ daysInMonth y m := daysInMonth_ge y m h1 h2
    have : (28 : Int) ≤ (daysInMonth y m : Int) := by exact_mod_cast hpos
    nlinarith [hw]
  · intro hm
    subst hm
    simp [get_month_bounds_ms, daysFromCivil, daysBeforeMonth]

/-- Witness for C2 at the leap February 2024. -/
theorem get_month_bounds_ms_correct_witness :
    (1 ≤ 2 ∧ 2 ≤ 2) ∧
    ((get_month_bounds_ms 2024 2).1 = daysFromCivil 2024 2 1 * 86400000 ∧
     (get_month_bounds_ms 2024 2).1 < (get_month_bounds_ms 2024 2).2 ∧
     (get_month_bounds_ms 2024 2).2 - (get_month_bounds_ms 2024 2).1
       = (daysInMonth 2024 2 : Int) * 86400000 ∧
     (2 = 12 → (get_month_bounds_ms 2024 2).2 = (get_month_bounds_ms 2025 1).1)) :=
  ⟨⟨by decide, by decide⟩, get_month_bounds_ms_correct 2024 2 (by decide) (by decide)⟩

/-! ## Civil date from epoch days

Embeds `datetime.fromtimestamp(timestamp_ms / 1000)` (UTC) for the
non-negative timestamps the provisioner accepts: day-by-day iteration from
the epoch date 1970-01-01. -/

structure CivilDate where
  year : Int
  month : Nat
  day : Nat
deriving DecidableEq

/-- Successor civil date. -/
def nextDay (c : CivilDate) : CivilDate :=
  if c.day < daysInMonth c.year c.month then ⟨c.year, c.month, c.day + 1⟩
  else if c.month < 12 then ⟨c.year, c.month + 1, 1⟩
  else ⟨c.year + 1, 1, 1⟩

/-- Civil date `n` days after 1970-01-01. -/
def civilFromDays : Nat → CivilDate
  | 0 => ⟨1970, 1, 1⟩
  | n + 1 => nextDay (civilFromDays n)

/-- The `(dt.year, dt.month)` pair the source reads off
`datetime.fromtimestamp(timestamp_ms / 1000)` (UTC), for `ts ≥ 0`. -/
def coveringMonth (ts : Int) : Int × Nat :=
  let c := civilFromDays (ts / 86400000).toNat
  (c.year, c.month)

/-! ## Partition catalog and provisioner

The PostgreSQL catalog is modelled as the list of existing partition
names.  `CREATE TABLE <p> PARTITION OF <table>` adds `p` when absent and
raises a duplicate-object error when `p` already exists; partitions are
only ever created by `create_monthly_partition` with the exact bounds of
`get_month_bounds_ms`, so a partition named `partitionName t y m` covers
exactly the timestamps whose `coveringMonth` is `(y, m)`. -/

/-- The static `PARTITIONED_TABLES` dict of `UniversalPartitionManager`
(database_config.py lines 63-75): table name → event-time column. -/
def PARTITIONED_TABLES : List (String × String) :=
  [("klines", "open_time"),
   ("index_price_klines", "open_time"),
   ("mark_price_klines", "open_time"),
   ("premium_index_klines", "open_time"),
   ("trades", "timestamp"),
   ("agg_trades", "timestamp"),
   ("book_depth", "timestamp"),
   ("book_ticker", "transaction_time"),
   ("trading_metrics", "create_time"),
   ("funding_rates", "calc_time"),
   ("bvol_index", "calc_time")]

/-- `table_name in self.PARTITIONED_TABLES`. -/
def isPartitionedTable (t : String) : Bool :=
  (PARTITIONED_TABLES.map Prod.fst).contains t

/-- `self.PARTITIONED_TABLES[table_name]` (the event-time column). -/
def timeColumnOf (t : String) : String :=
  ((PARTITIONED_TABLES.find? (fun p => p.1 == t)).map Prod.snd).getD ""

/-- `f"{table_name}_{year}_{month:02d}"` (database_config.py line 171). -/
def partitionName (t : String) (y : Int) (m : Nat) : String :=
  t ++ "_" ++ toString y ++ "_"
    ++ (if m < 10 then "0" ++ toString m else toString m)

/-- `UniversalPartitionManager.create_monthly_partition` (database_config.py
lines 164-199).  `stCheck` is the set of partitions the store reports at
`partition_exists` time and `stCreate` the set at `CREATE TABLE` time — a
concurrent creator may have added partitions in between; a purely
sequential call has `stCheck = stCreate`.  A duplicate name at create time
makes the store raise a duplicate-object error, and the blanket `except`
at lines 197-199 turns any error into a `False` return. -/
def create_monthly_partition (stCheck stCreate : List String)
    (table : String) (year : Int) (month : Nat) : List String × Bool :=
  if isPartitionedTable table then
    let p := partitionName table year month
    if stCheck.contains p then (stCreate, true)
    else if stCreate.contains p then (stCreate, false)
    else (p :: stCreate, true)
  else (stCreate, false)

/-- `UniversalPartitionManager.ensure_partition_for_timestamp`
(database_config.py lines 201-225) with a sequential store.  `none` models
Python `None`. -/
def ensure_partition_for_timestamp (st : List String) (table : String)
    (ts : Option Int) : List String × Bool :=
  if isPartitionedTable table then
    match ts with
    | none => (st, false)
    | some t =>
      if t ≤ 0 then (st, false)
      else
        let ym := coveringMonth t
        create_monthly_partition st st table ym.1 ym.2
  else (st, true)

/-! ## DataFrame model and `auto_create_partitions_for_data` -/

/-- A raw cell as `auto_create_partitions_for_data` sees it: `NaN`, a
numeric value, or a token `pd.to_numeric(..., errors="coerce")` cannot
parse (which it coerces to `NaN`). -/
inductive Cell
  | nan
  | num (v : Int)
  | tok (s : String)
deriving DecidableEq

/-- The part of a pandas DataFrame the partition manager reads: named
columns of cells (all columns have the same length). -/
structure DataFrame where
  cols : List (String × List Cell)

/-- `df.empty`. -/
def DataFrame.isEmpty (df : DataFrame) : Bool :=
  df.cols.all (fun c => c.2.isEmpty)

/-- `df[name]`, when the column exists. -/
def DataFrame.getCol (df : DataFrame) (name : String) : Option (List Cell) :=
  (df.cols.find? (fun c => c.1 == name)).map Prod.snd

/-- The composite filter of lines 248-275 of database_config.py: `dropna`,
`pd.to_numeric(..., errors="coerce")` + `dropna`, then the
`ts <= 0 or ts > 9999999999999` range guard (for the surviving range
`datetime.fromtimestamp` never raises). -/
def validTs (c : Cell) : Option Int :=
  match c with
  | .num v => if 0 < v ∧ v ≤ 9999999999999 then some v else none
  | _ => none

/-- The loop of database_config.py lines 282-290: create the partition of
each month in turn, counting successful creations. -/
def createPartitionsForMonths (st : List String) (table : String) :
    List (Int × Nat) → List String × Nat
  | [] => (st, 0)
  | ym :: rest =>
    let r := create_monthly_partition st st table ym.1 ym.2
    let res := createPartitionsForMonths r.1 table rest
    (res.1, (if r.2 then 1 else 0) + res.2)

/-- `UniversalPartitionManager.auto_create_partitions_for_data`
(database_config.py lines 227-297). -/
def auto_create_partitions_for_data (st : List String) (table : String)
    (df : DataFrame) (timestamp_column : Option String) :
    List String × Bool :=
  if !(isPartitionedTable table) then (st, true)
  else if df.isEmpty then (st, true)
  else
    let tsCol := timestamp_column.getD (timeColumnOf table)
    match df.getCol tsCol with
    | none => (st, true)
    | some vals =>
      let months := (vals.filterMap validTs).map coveringMonth
      let uniqueMonths := months.dedup
      if uniqueMonths.isEmpty then (st, true)
      else
        let r := createPartitionsForMonths st table uniqueMonths
        (r.1, r.2 == uniqueMonths.length)

/-! ## Bulk writer model (`DataImporter.batch_insert_data`)

A normalized row is a Python dict; the store behaviour modelled here
depends only on the value of the table's event-time column (`ts`) and on
the destination table's uniqueness key (`key`, e.g. symbol + interval +
open_time for candlestick tables); `payload` stands for the remaining
column values.  Rows reaching `batch_insert_data` are NaN-free (the NaN
paths of lines 1012-1061 act on the prepared frame; the `trading_metrics`
null policy is modelled separately with `prepare_data_by_type_metrics`). -/

structure Row where
  ts : Int
  key : Nat
  payload : Int
deriving DecidableEq

/-- The destination store: partitions of all tables plus the committed
rows of the destination table under consideration. -/
structure Store where
  parts : List String
  rows : List Row
deriving DecidableEq

/-- PostgreSQL coverage check for an insert: partitions are created only
by `create_monthly_partition`, with exactly the `get_month_bounds_ms`
bounds of their month, so for `ts ≥ 0` a partition covers `ts` iff it is
the partition of `ts`'s covering month.  A non-partitioned table accepts
any row. -/
def covered (parts : List String) (table : String) (ts : Int) : Bool :=
  if isPartitionedTable table then
    parts.contains
      (partitionName table (coveringMonth ts).1 (coveringMonth ts).2)
  else true

/-- `INSERT ... ON CONFLICT DO NOTHING` of one row into the transaction's
view of the destination table: a row whose uniqueness key is already
present is skipped silently, otherwise it is appended. -/
def insertOnConflictDoNothing (cur : List Row) (r : Row) : List Row :=
  if cur.any (fun s => s.key == r.key) then cur else cur ++ [r]

/-- `psycopg2.extras.execute_batch` of the insert statement over a chunk:
rows are inserted in order into the transaction-local view; the first row
covered by no partition raises "no partition of relation", leaving the
rows before it inserted but uncommitted. -/
def executeBatch (parts : List String) (table : String) (cur : List Row) :
    List Row → List Row × Bool
  | [] => (cur, true)
  | r :: rest =>
    if covered parts table r.ts then
      executeBatch parts table (insertOnConflictDoNothing cur r) rest
    else (cur, false)

/-- `records[i : i + batch_size]` chunking (`range(0, total, batch_size)`
with the source's positive `batch_size`); the fuel argument makes the
recursion structural. -/
def chunksOfAux (bs : Nat) : Nat → List Row → List (List Row)
  | 0, _ => []
  | _ + 1, [] => []
  | fuel + 1, a :: l => (a :: l).take bs :: chunksOfAux bs fuel ((a :: l).drop bs)

def chunksOf (bs : Nat) (l : List Row) : List (List Row) :=
  chunksOfAux bs l.length l

/-- The DataFrame handed to `auto_create_partitions_for_data`, restricted
to the event-time column it reads. -/
def dfOfRows (table : String) (rows : List Row) : DataFrame :=
  ⟨[(timeColumnOf table, rows.map (fun r => Cell.num r.ts))]⟩

/-- The per-chunk insert loop of `batch_insert_data` (data_importer.py
lines 1085-1168).  Returns the partition list (partition creations run on
separate pooled connections and commit immediately), the transaction's
pending row view, the running `records_inserted` count, the number of
retry submissions attempted (ghost counter), and whether the loop
completed without an error escaping.  On a "no partition of relation"
failure the chunk's months are re-provisioned
(`auto_create_partitions_for_data` on `pd.DataFrame(batch)`, lines
1126-1137) and the same chunk is resubmitted exactly once (lines
1139-1149); a second failure, or a failed re-provisioning, raises
(lines 1150-1168), ending the loop with an error. -/
def processChunks (table : String) :
    List String → List Row → Nat → Nat → List (List Row) →
    List String × List Row × Nat × Nat × Bool
  | parts, cur, inserted, retries, [] => (parts, cur, inserted, retries, true)
  | parts, cur, inserted, retries, chunk :: rest =>
    let r1 := executeBatch parts table cur chunk
    if r1.2 then
      processChunks table parts r1.1 (inserted + chunk.length) retries rest
    else
      let pr := auto_create_partitions_for_data parts table
        (dfOfRows table chunk) (some (timeColumnOf table))
      if pr.2 then
        let r2 := executeBatch pr.1 table r1.1 chunk
        if r2.2 then
          processChunks table pr.1 r2.1 (inserted + chunk.length)
            (retries + 1) rest
        else (pr.1, r2.1, inserted, retries + 1, false)
      else (pr.1, r1.1, inserted, retries, false)

/-- The partition pre-provisioning step of `batch_insert_data` (lines
1063-1078): for a partitioned table, provision every month appearing in
the DataFrame's event-time column; the returned success flag is ignored
(only a warning is logged, line 1074). -/
def prePartsOf (st : Store) (table : String) (df : List Row) : List String :=
  if isPartitionedTable table then
    (auto_create_partitions_for_data st.parts table (dfOfRows table df)
      (some (timeColumnOf table))).1
  else st.parts

/-- `DataImporter.batch_insert_data` (data_importer.py lines 1006-1176).
Row inserts are pending on the single connection and commit only when the
loop finishes (line 1170); when an error escapes after the single retry,
`get_connection` rolls the transaction back and the outer `except`
returns 0 (lines 1174-1176). -/
def batch_insert_data (st : Store) (table : String) (df : List Row)
    (batch_size : Nat) : Store × Nat :=
  let pre := prePartsOf st table df
  let r := processChunks table pre st.rows 0 0 (chunksOf batch_size df)
  if r.2.2.2.2 then ({ parts := r.1, rows := r.2.1 }, r.2.2.1)
  else ({ parts := r.1, rows := st.rows }, 0)

/-! ## Record normalizer null policy (`DataImporter.prepare_data_by_type`,
`trading_metrics` branch) -/

/-- A raw `trading_metrics` record after column mapping, restricted to the
required event-time field and one representative optional numeric field
(the five other numeric fields of lines 597-604 behave identically);
`none` models NaN. -/
structure RawMetricsRow where
  create_time : Option Int
  sum_open_interest : Option Rat
deriving DecidableEq

/-- The `trading_metrics` null policy of `prepare_data_by_type`
(data_importer.py lines 593-644 and 683-687): optional numeric NaNs are
filled with 0.0 (lines 606-627); any NaN remaining in `create_time`
rejects the whole batch, returning `None` (lines 637-644); an empty
result also returns `None` (lines 683-687). -/
def fillMetricsRow (r : RawMetricsRow) : RawMetricsRow :=
  { r with sum_open_interest := some (r.sum_open_interest.getD 0) }

def prepare_data_by_type_metrics (rows : List RawMetricsRow) :
    Option (List RawMetricsRow) :=
  let filled := rows.map fillMetricsRow
  if filled.any (fun r => r.create_time.isNone) then none
  else if filled.isEmpty then none
  else some filled

/-! ## Ingestion orchestrator (`DataImporter.import_directory`) -/

/-- One worker's outcome for one file: `import_single_file` returns a
Bool after catching its own exceptions; `raised` models an exception
escaping into `future.result()`, caught by the orchestrator's `except`
(data_importer.py lines 1282-1291). -/
inductive FileOutcome
  | ok
  | failed
  | raised (msg : String)
deriving DecidableEq

/-- The dict returned by `import_directory`. -/
structure RunSummary where
  successful_imports : Nat
  failed_imports : Nat
  failed_files : List String
deriving DecidableEq

/-- One step of the result-aggregation loop (lines 1251-1291). -/
def recordResult (acc : RunSummary) (f : String) (o : FileOutcome) :
    RunSummary :=
  match o with
  | .ok => { acc with successful_imports := acc.successful_imports + 1 }
  | _ => { acc with failed_imports := acc.failed_imports + 1,
                    failed_files := acc.failed_files ++ [f] }

/-- `DataImporter.import_directory` (data_importer.py lines 1178-1310).
`files` is the concatenated glob result over the patterns — a missing or
unreadable directory enumerates to `[]` (`glob.glob` raises nothing) —
and `outcome` is each worker's result.  The thread pool is modelled by
folding over the deduplicated file list: the counts and the set of failed
files do not depend on completion order. -/
def import_directory (files : List String)
    (outcome : String → FileOutcome) : RunSummary :=
  let all_files := files.dedup
  if all_files.isEmpty then ⟨0, 0, []⟩
  else all_files.foldl (fun acc f => recordResult acc f (outcome f)) ⟨0, 0, []⟩

/-! ## C1: provisioning idempotence -/

/-- C1 counterexample: with the store state `[]` at `partition_exists` time
and `["klines_2024_01"]` at `CREATE TABLE` time (a concurrent creator won
the race, so the store raises a duplicate/already-exists error), the call
returns `False` — not success as the claim states. -/
theorem create_monthly_partition_race_not_success :
    (create_monthly_partition [] ["klines_2024_01"] "klines" 2024 1).2
      = false := by decide

/-- C1 (amended): for a partitioned table, a second sequential call after
a successful first call returns success and leaves exactly one partition;
but when the store raises a duplicate/already-exists error because a
concurrent creator added the partition between the existence check and the
create, the call returns failure (`False`) while leaving the store
unchanged (exactly one partition still exists and no exception escapes). -/
theorem create_monthly_partition_amended (st : List String) (table : String)
    (y : Int) (m : Nat) (htab : isPartitionedTable table = true)
    (hcount : st.count (partitionName table y m) ≤ 1) :
    ((create_monthly_partition st st table y m).2 = true ∧
     (create_monthly_partition
        (create_monthly_partition st st table y m).1
        (create_monthly_partition st st table y m).1 table y m)
       = ((create_monthly_partition st st table y m).1, true) ∧
     (create_monthly_partition st st table y m).1.count
        (partitionName table y m) = 1) ∧
    (∀ stCreate : List String,
      st.contains (partitionName table y m) = false →
      stCreate.contains (partitionName table y m) = true →
      create_monthly_partition st stCreate table y m = (stCreate, false)) := by
  constructor
  · by_cases hmem : partitionName table y m ∈ st
    · have h1 : ¬ st.count (partitionName table y m) = 0 := fun h0 =>
        (List.count_eq_zero.mp h0) hmem
      refine ⟨?_, ?_, ?_⟩
      · simp [create_monthly_partition, htab, hmem]
      · simp [create_monthly_partition, htab, hmem]
      · simp [create_monthly_partition, htab, hmem]
        omega
    · have hcnt : st.count (partitionName table y m) = 0 :=
        List.count_eq_zero.mpr hmem
      have hr1 : (create_monthly_partition st st table y m).1
          = partitionName table y m :: st := by
        simp [create_monthly_partition, htab, hmem]
      refine ⟨?_, ?_, ?_⟩
      · simp [create_monthly_partition, htab, hmem]
      · rw [hr1]
        simp [create_monthly_partition, htab]
      · rw [hr1]
        simp [List.count_cons_self, hcnt]
  · intro stCreate hchk hcr
    have hchk' : partitionName table y m ∉ st := by simpa using hchk
    have hcr' : partitionName table y m ∈ stCreate := by simpa using hcr
    simp [create_monthly_partition, htab, hchk', hcr']

/-- Witness for C1's amended theorem at `table = "klines"`, `2024-01`,
empty initial store. -/
theorem create_monthly_partition_amended_witness :
    (isPartitionedTable "klines" = true ∧
     List.count (partitionName "klines" 2024 1) [] ≤ 1) ∧
    (((create_monthly_partition [] [] "klines" 2024 1).2 = true ∧
      (create_monthly_partition
         (create_monthly_partition [] [] "klines" 2024 1).1
         (create_monthly_partition [] [] "klines" 2024 1).1 "klines" 2024 1)
        = ((create_monthly_partition [] [] "klines" 2024 1).1, true) ∧
      (create_monthly_partition [] [] "klines" 2024 1).1.count
         (partitionName "klines" 2024 1) = 1) ∧
     (∀ stCreate : List String,
       List.contains [] (partitionName "klines" 2024 1) = false →
       stCreate.contains (partitionName "klines" 2024 1) = true →
       create_monthly_partition [] stCreate "klines" 2024 1
         = (stCreate, false))) :=
  ⟨⟨by decide, by decide⟩,
   create_monthly_partition_amended [] "klines" 2024 1 (by decide) (by decide)⟩

/-! ## C9: invalid timestamps in `ensure_partition_for_timestamp` -/

/-- C9 counterexample: for a table outside the partitioned-table set, the
`table_name not in self.PARTITIONED_TABLES` check fires first and the call
returns `True` even though the timestamp is `None` — so it is not the case
that every call with an invalid timestamp returns `False`. -/
theorem ensure_partition_for_timestamp_invalid_not_always_false :
    ensure_partition_for_timestamp [] "symbols" none = ([], true) := by decide

/-- C9 (amended): for every table in the partitioned-table set, a call
with a timestamp that is `None` or not strictly positive returns `False`
and leaves the store unchanged (no partition creation is attempted); for
tables outside the set the function returns `True` regardless of the
timestamp. -/
theorem ensure_partition_for_timestamp_rejects_invalid (st : List String)
    (table : String) (ts : Option Int)
    (htab : isPartitionedTable table = true)
    (hts : ts = none ∨ ∃ t, ts = some t ∧ t ≤ 0) :
    ensure_partition_for_timestamp st table ts = (st, false) := by
  rcases hts with h | ⟨t, ht, hle⟩
  · subst h
    simp [ensure_partition_for_timestamp, htab]
  · subst ht
    simp [ensure_partition_for_timestamp, htab, if_pos hle]

/-- Witness for C9's amended theorem: `klines` with timestamp `0`. -/
theorem ensure_partition_for_timestamp_rejects_invalid_witness :
    (isPartitionedTable "klines" = true ∧
     ((some 0 : Option Int) = none ∨
       ∃ t, (some 0 : Option Int) = some t ∧ t ≤ 0)) ∧
    ensure_partition_for_timestamp ["klines_2024_01"] "klines" (some 0)
      = (["klines_2024_01"], false) :=
  ⟨⟨by decide, Or.inr ⟨0, rfl, by decide⟩⟩,
   ensure_partition_for_timestamp_rejects_invalid ["klines_2024_01"] "klines"
     (some 0) (by decide) (Or.inr ⟨0, rfl, by decide⟩)⟩

/-! ## C10: vacuous success of `auto_create_partitions_for_data` -/

/-- C10: `auto_create_partitions_for_data` returns `True` and creates no
partition whenever the table is not partitioned, the DataFrame is empty,
the timestamp column is missing, or every timestamp value is NaN,
non-numeric, non-positive, or greater than 9,999,999,999,999. -/
theorem auto_create_partitions_for_data_vacuous (st : List String)
    (table : String) (df : DataFrame) (tsc : Option String)
    (h : isPartitionedTable table = false ∨ df.isEmpty = true ∨
         df.getCol (tsc.getD (timeColumnOf table)) = none ∨
         (∃ vals, df.getCol (tsc.getD (timeColumnOf table)) = some vals ∧
            ∀ c ∈ vals, validTs c = none)) :
    auto_create_partitions_for_data st table df tsc = (st, true) := by
  by_cases htab : isPartitionedTable table
  · by_cases hemp : df.isEmpty
    · simp [auto_create_partitions_for_data, htab, hemp]
    · rcases h with h | h | h | ⟨vals, hv, hall⟩
      · simp [htab] at h
      · simp [hemp] at h
      · simp [auto_create_partitions_for_data, htab, hemp, h]
      · have hnil : vals.filterMap validTs = [] :=
          List.filterMap_eq_nil_iff.mpr hall
        simp [auto_create_partitions_for_data, htab, hemp, hv, hnil]
  · simp [auto_create_partitions_for_data, htab]

/-- Witness for C10: `klines` DataFrame whose `open_time` column holds
only NaN, a non-numeric token, `0` and an out-of-range value. -/
theorem auto_create_partitions_for_data_vacuous_witness :
    (isPartitionedTable "klines" = false ∨
     (DataFrame.mk [("open_time",
        [Cell.nan, Cell.tok "x", Cell.num 0,
         Cell.num 10000000000000])]).isEmpty = true ∨
     (DataFrame.mk [("open_time",
        [Cell.nan, Cell.tok "x", Cell.num 0,
         Cell.num 10000000000000])]).getCol
        ((none : Option String).getD (timeColumnOf "klines")) = none ∨
     (∃ vals, (DataFrame.mk [("open_time",
        [Cell.nan, Cell.tok "x", Cell.num 0,
         Cell.num 10000000000000])]).getCol
        ((none : Option String).getD (timeColumnOf "klines")) = some vals ∧
        ∀ c ∈ vals, validTs c = none)) ∧
    auto_create_partitions_for_data [] "klines"
      (DataFrame.mk [("open_time",
        [Cell.nan, Cell.tok "x", Cell.num 0, Cell.num 10000000000000])])
      none = ([], true) := by
  refine ⟨Or.inr (Or.inr (Or.inr ⟨_, rfl, by decide⟩)), ?_⟩
  exact auto_create_partitions_for_data_vacuous [] "klines" _ none
    (Or.inr (Or.inr (Or.inr ⟨_, rfl, by decide⟩)))

/-! ## C6: the covering month of a timestamp contains it -/

/-- Invariant of the day-by-day iteration: the date is well formed and
`daysFromCivil` maps it back to its day number. -/
def DateInv (c : CivilDate) (n : Nat) : Prop :=
  1 ≤ c.month ∧ c.month ≤ 12 ∧ 1 ≤ c.day ∧
    c.day ≤ daysInMonth c.year c.month ∧
    daysFromCivil c.year c.month c.day = (n : Int)

lemma civilFromDays_inv : ∀ n : Nat, DateInv (civilFromDays n) n := by
  intro n
  induction n with
  | zero =>
    refine ⟨by decide, by decide, by decide, by decide, ?_⟩
    show daysFromCivil 1970 1 1 = 0
    norm_num [daysFromCivil, daysSinceEpochOfYear, daysBeforeMonth, daysInMonth]
  | succ n ih =>
    show DateInv (nextDay (civilFromDays n)) (n + 1)
    rcases hsplit : civilFromDays n with ⟨cy, cm, cd⟩
    rw [hsplit] at ih
    obtain ⟨hm1, hm2, hd1, hd2, heq⟩ := ih
    dsimp only at hm1 hm2 hd1 hd2 heq
    rw [nextDay]
    dsimp only
    split_ifs with hlt hm12
    · refine ⟨?_, ?_, ?_, ?_, ?_⟩ <;> dsimp only
      · exact hm1
      · exact hm2
      · omega
      · omega
      · simp only [daysFromCivil] at heq ⊢
        push_cast at heq ⊢
        omega
    · have hd : cd = daysInMonth cy cm := by omega
      have hpos := daysInMonth_ge cy (cm + 1) (by omega) (by omega)
      refine ⟨?_, ?_, ?_, ?_, ?_⟩ <;> dsimp only
      · omega
      · omega
      · omega
      · omega
      · simp only [daysFromCivil, daysBeforeMonth_succ] at heq ⊢
        push_cast at heq ⊢
        omega
    · have hmeq : cm = 12 := by omega
      have hdim : daysInMonth cy 12 = 31 := rfl
      have hd : cd = 31 := by rw [hmeq] at hd2 hlt; omega
      have hdim1 : daysInMonth (cy + 1) 1 = 31 := rfl
      refine ⟨?_, ?_, ?_, ?_, ?_⟩ <;> dsimp only
      · omega
      · omega
      · omega
      · omega
      · rw [hmeq, hd] at heq
        have hy := daysSinceEpochOfYear_succ cy
        have hbm := daysBeforeMonth_12_add cy
        simp only [daysFromCivil] at heq ⊢
        have h1 : daysBeforeMonth (cy + 1) 1 = 0 := rfl
        rw [h1]
        by_cases hl : isLeap cy <;>
          simp only [hl, if_true, if_false] at hy hbm <;>
          push_cast at heq ⊢ <;>
          omega

/-- C6: the covering month of a positive timestamp — obtained, as in
`ensure_partition_for_timestamp` and `auto_create_partitions_for_data`, by
converting the epoch-ms instant to a UTC calendar date and reading year and
month — is a month 1-12 whose `get_month_bounds_ms` half-open interval
contains the timestamp. -/
theorem coveringMonth_within_bounds (ts : Int) (h : 0 < ts) :
    1 ≤ (coveringMonth ts).2 ∧ (coveringMonth ts).2 ≤ 12 ∧
    (get_month_bounds_ms (coveringMonth ts).1 (coveringMonth ts).2).1 ≤ ts ∧
    ts < (get_month_bounds_ms (coveringMonth ts).1 (coveringMonth ts).2).2 := by
  have hdivnn : 0 ≤ ts / 86400000 := by omega
  set n : Nat := (ts / 86400000).toNat with hn
  have hcast : (n : Int) = ts / 86400000 := Int.toNat_of_nonneg hdivnn
  have hlow : (n : Int) * 86400000 ≤ ts := by omega
  have hhigh : ts < ((n : Int) + 1) * 86400000 := by
    have := Int.emod_nonneg ts (by norm_num : (86400000 : Int) ≠ 0)
    omega
  obtain ⟨hm1, hm2, hd1, hd2, heq⟩ := civilFromDays_inv n
  set c := civilFromDays n with hc
  have hcm : coveringMonth ts = (c.year, c.month) := rfl
  rw [hcm]
  have hw := month_bounds_width c.year c.month hm1 hm2
  have hstart : (get_month_bounds_ms c.year c.month).1
      = daysFromCivil c.year c.month 1 * 86400000 := rfl
  rw [daysFromCivil] at heq
  have hstart' : (get_month_bounds_ms c.year c.month).1
      = ((n : Int) - ((c.day : Int) - 1)) * 86400000 := by
    rw [hstart, daysFromCivil]
    push_cast at heq ⊢
    nlinarith [heq]
  refine ⟨hm1, hm2, ?_, ?_⟩
  · rw [hstart']
    have h1 : ((1 : Int) ≤ (c.day : Int)) := by exact_mod_cast hd1
    nlinarith [hlow]
  · rw [hw, hstart']
    have h2 : ((c.day : Int) ≤ (daysInMonth c.year c.month : Int)) := by
      exact_mod_cast hd2
    nlinarith [hhigh]

/-- Witness for C6 at `ts = 3000000000` (1970-02-04). -/
theorem coveringMonth_within_bounds_witness :
    (0 : Int) < 3000000000 ∧
    (1 ≤ (coveringMonth 3000000000).2 ∧ (coveringMonth 3000000000).2 ≤ 12 ∧
     (get_month_bounds_ms (coveringMonth 3000000000).1
        (coveringMonth 3000000000).2).1 ≤ 3000000000 ∧
     (3000000000 : Int) <
       (get_month_bounds_ms (coveringMonth 3000000000).1
          (coveringMonth 3000000000).2).2) :=
  ⟨by decide, coveringMonth_within_bounds 3000000000 (by decide)⟩

/-! ## Helper lemmas about the writer model -/

/-- Sequential partition creation only adds partitions. -/
lemma create_seq_mono {x : String} (st : List String) (table : String)
    (y : Int) (m : Nat) (hx : x ∈ st) :
    x ∈ (create_monthly_partition st st table y m).1 := by
  by_cases htab : isPartitionedTable table
  · by_cases hmem : partitionName table y m ∈ st
    · simp [create_monthly_partition, htab, hmem, hx]
    · simp [create_monthly_partition, htab, hmem]
      exact Or.inr hx
  · simp [create_monthly_partition, htab, hx]

/-- After a sequential creation the partition exists. -/
lemma create_seq_mem (st : List String) (table : String) (y : Int) (m : Nat)
    (htab : isPartitionedTable table = true) :
    partitionName table y m ∈ (create_monthly_partition st st table y m).1 := by
  by_cases hmem : partitionName table y m ∈ st
  · simp [create_monthly_partition, htab, hmem]
  · simp [create_monthly_partition, htab, hmem]

/-- The month-creation loop only adds partitions. -/
lemma createPartitionsForMonths_mono {x : String} (table : String) :
    ∀ (months : List (Int × Nat)) (st : List String), x ∈ st →
      x ∈ (createPartitionsForMonths st table months).1 := by
  intro months
  induction months with
  | nil => intro st hx; exact hx
  | cons ym rest ih =>
    intro st hx
    exact ih _ (create_seq_mono st table ym.1 ym.2 hx)

/-- After the month-creation loop every requested month's partition
exists. -/
lemma createPartitionsForMonths_mem (table : String)
    (htab : isPartitionedTable table = true) :
    ∀ (months : List (Int × Nat)) (st : List String) (ym : Int × Nat),
      ym ∈ months →
      partitionName table ym.1 ym.2
        ∈ (createPartitionsForMonths st table months).1 := by
  intro months
  induction months with
  | nil => intro st ym h; cases h
  | cons ym0 rest ih =>
    intro st ym h
    rcases List.mem_cons.mp h with heq | hmem
    · subst heq
      exact createPartitionsForMonths_mono table rest _
        (create_seq_mem st table ym.1 ym.2 htab)
    · exact ih _ ym hmem

/-- `auto_create_partitions_for_data` only adds partitions. -/
lemma auto_create_mono {x : String} (st : List String) (table : String)
    (df : DataFrame) (tsc : Option String) (hx : x ∈ st) :
    x ∈ (auto_create_partitions_for_data st table df tsc).1 := by
  rw [auto_create_partitions_for_data]
  by_cases htab : isPartitionedTable table
  · simp only [htab, Bool.not_true, if_false, Bool.false_eq_true]
    by_cases hemp : df.isEmpty
    · simp [hemp, hx]
    · simp only [hemp, Bool.false_eq_true, if_false]
      rcases hcol : df.getCol (tsc.getD (timeColumnOf table)) with _ | vals
      · exact hx
      · simp only []
        by_cases hm : (((vals.filterMap validTs).map coveringMonth).dedup).isEmpty
        · simp [hm, hx]
        · simp only [hm, Bool.false_eq_true, if_false]
          exact createPartitionsForMonths_mono table _ _ hx
  · simp [htab, hx]

/-- The DataFrame built from a chunk is empty only for the empty chunk. -/
lemma dfOfRows_isEmpty (table : String) (rows : List Row) :
    (dfOfRows table rows).isEmpty = rows.isEmpty := by
  cases rows <;> simp [dfOfRows, DataFrame.isEmpty]

/-- The DataFrame built from a chunk exposes its event-time column. -/
lemma dfOfRows_getCol (table : String) (rows : List Row) :
    (dfOfRows table rows).getCol (timeColumnOf table)
      = some (rows.map (fun r => Cell.num r.ts)) := by
  simp [dfOfRows, DataFrame.getCol, List.find?]

/-- After `auto_create_partitions_for_data` on the DataFrame of `rows`,
the partition of every valid row timestamp exists. -/
lemma auto_create_covers_valid (st : List String) (table : String)
    (rows : List Row) (htab : isPartitionedTable table = true)
    (r : Row) (hr : r ∈ rows) (hv : 0 < r.ts ∧ r.ts ≤ 9999999999999) :
    partitionName table (coveringMonth r.ts).1 (coveringMonth r.ts).2
      ∈ (auto_create_partitions_for_data st table (dfOfRows table rows)
          (some (timeColumnOf table))).1 := by
  have hne : rows ≠ [] := by rintro rfl; cases hr
  have hemp : (dfOfRows table rows).isEmpty = false := by
    rw [dfOfRows_isEmpty]
    simpa [List.isEmpty_iff] using hne
  have hts : r.ts ∈ (rows.map (fun r => Cell.num r.ts)).filterMap validTs := by
    refine List.mem_filterMap.mpr ⟨Cell.num r.ts, ?_, ?_⟩
    · exact List.mem_map.mpr ⟨r, hr, rfl⟩
    · simp [validTs, hv]
  have hym : coveringMonth r.ts
      ∈ (((rows.map (fun r => Cell.num r.ts)).filterMap validTs).map
          coveringMonth).dedup :=
    List.mem_dedup.mpr (List.mem_map.mpr ⟨r.ts, hts, rfl⟩)
  have hmne : ((((rows.map (fun r => Cell.num r.ts)).filterMap validTs).map
      coveringMonth).dedup).isEmpty = false :=
    List.isEmpty_eq_false.mpr (List.ne_nil_of_mem hym)
  rw [auto_create_partitions_for_data]
  simp only [htab, Bool.not_true, Bool.false_eq_true, if_false, Option.getD,
    hemp, dfOfRows_getCol, hmne]
  exact createPartitionsForMonths_mem table htab _ _ _ hym

/-- Coverage is monotone in the partition list. -/
lemma covered_mono (parts parts' : List String) (table : String) (ts : Int)
    (hsub : ∀ x ∈ parts, x ∈ parts')
    (hc : covered parts table ts = true) : covered parts' table ts = true := by
  rw [covered] at hc ⊢
  by_cases htab : isPartitionedTable table
  · simp only [htab, if_true] at hc ⊢
    simp at hc ⊢
    exact hsub _ hc
  · simp [htab]

/-- A fully covered chunk executes without error, inserting its rows in
order. -/
lemma executeBatch_success (parts : List String) (table : String) :
    ∀ (chunk : List Row) (cur : List Row),
      (∀ r ∈ chunk, covered parts table r.ts = true) →
      executeBatch parts table cur chunk
        = (chunk.foldl insertOnConflictDoNothing cur, true) := by
  intro chunk
  induction chunk with
  | nil => intro cur _; rfl
  | cons r rest ih =>
    intro cur hcov
    rw [executeBatch, if_pos (hcov r (List.mem_cons_self r rest))]
    rw [ih _ (fun s hs => hcov s (List.mem_cons_of_mem r hs))]
    rfl

/-- When every row of every chunk is covered, the chunk loop succeeds: no
retry happens, the partitions are unchanged, and the count is the total
number of submitted rows. -/
lemma processChunks_all_covered (table : String) (parts : List String) :
    ∀ (chunks : List (List Row)) (cur : List Row) (n k : Nat),
      (∀ chunk ∈ chunks, ∀ r ∈ chunk, covered parts table r.ts = true) →
      processChunks table parts cur n k chunks
        = (parts, chunks.flatten.foldl insertOnConflictDoNothing cur,
           n + chunks.flatten.length, k, true) := by
  intro chunks
  induction chunks with
  | nil => intro cur n k _; simp [processChunks]
  | cons chunk rest ih =>
    intro cur n k hcov
    rw [processChunks]
    rw [executeBatch_success parts table chunk cur
      (hcov chunk (List.mem_cons_self chunk rest))]
    simp only [if_true]
    rw [ih _ _ _ (fun c hc r hr => hcov c (List.mem_cons_of_mem chunk hc) r hr)]
    rw [List.flatten_cons, List.foldl_append, List.length_append]
    refine congrArg _ ?_
    refine congrArg _ ?_
    refine congrArg (fun z => (z, k, true)) ?_
    omega

/-- Chunking splits the list without loss. -/
lemma chunksOfAux_flatten (bs : Nat) (hbs : 1 ≤ bs) :
    ∀ (fuel : Nat) (l : List Row), l.length ≤ fuel →
      (chunksOfAux bs fuel l).flatten = l := by
  intro fuel
  induction fuel with
  | zero =>
    intro l hl
    have : l = [] := List.length_eq_zero.mp (Nat.le_zero.mp hl)
    subst this
    rfl
  | succ fuel ih =>
    intro l hl
    cases l with
    | nil => rfl
    | cons a l' =>
      have hlen : ((a :: l').drop bs).length ≤ fuel := by
        rw [List.length_drop]
        simp only [List.length_cons] at hl ⊢
        omega
      rw [chunksOfAux, List.flatten_cons, ih ((a :: l').drop bs) hlen]
      exact List.take_append_drop bs (a :: l')

lemma chunksOf_flatten (bs : Nat) (l : List Row) (hbs : 1 ≤ bs) :
    (chunksOf bs l).flatten = l :=
  chunksOfAux_flatten bs hbs l.length l (le_refl _)

/-- Rows of chunks are rows of the original list. -/
lemma chunksOf_mem (bs : Nat) (l : List Row) (hbs : 1 ≤ bs)
    (chunk : List Row) (hc : chunk ∈ chunksOf bs l) (r : Row) (hr : r ∈ chunk) :
    r ∈ l := by
  have : r ∈ (chunksOf bs l).flatten := List.mem_flatten.mpr ⟨chunk, hc, hr⟩
  rwa [chunksOf_flatten bs l hbs] at this

/-- After pre-provisioning, every valid row of the batch is covered. -/
lemma prePartsOf_covers (st : Store) (table : String) (df : List Row)
    (htab : isPartitionedTable table = true) (r : Row) (hr : r ∈ df)
    (hv : 0 < r.ts ∧ r.ts ≤ 9999999999999) :
    covered (prePartsOf st table df) table r.ts = true := by
  rw [prePartsOf, if_pos htab, covered, if_pos htab]
  simp
  exact auto_create_covers_valid st.parts table df htab r hr hv

/-- On an all-valid batch, `batch_insert_data` succeeds: the partitions
are the pre-provisioned ones, the committed rows are the conflict-skipping
fold of the batch over the previous rows, and the returned count is the
full input length. -/
lemma batch_insert_data_success (st : Store) (table : String)
    (df : List Row) (bs : Nat) (hbs : 1 ≤ bs)
    (htab : isPartitionedTable table = true)
    (hvalid : ∀ r ∈ df, 0 < r.ts ∧ r.ts ≤ 9999999999999) :
    batch_insert_data st table df bs
      = ({ parts := prePartsOf st table df,
           rows := df.foldl insertOnConflictDoNothing st.rows }, df.length) := by
  have hcov : ∀ chunk ∈ chunksOf bs df, ∀ r ∈ chunk,
      covered (prePartsOf st table df) table r.ts = true := by
    intro chunk hc r hr
    exact prePartsOf_covers st table df htab r
      (chunksOf_mem bs df hbs chunk hc r hr) (hvalid r (chunksOf_mem bs df hbs chunk hc r hr))
  rw [batch_insert_data]
  rw [processChunks_all_covered table (prePartsOf st table df) _ _ _ _ hcov]
  rw [chunksOf_flatten bs df hbs]
  simp

/-- Every key submitted to the fold ends up present. -/
lemma foldl_insert_mono (cur : List Row) (l : List Row) (s : Row)
    (hs : s ∈ cur) : s ∈ l.foldl insertOnConflictDoNothing cur := by
  induction l generalizing cur with
  | nil => exact hs
  | cons r rest ih =>
    refine ih (insertOnConflictDoNothing cur r) ?_
    rw [insertOnConflictDoNothing]
    split_ifs with h
    · exact hs
    · exact List.mem_append_left _ hs

lemma foldl_insert_key_present (cur : List Row) (l : List Row) (r : Row)
    (hr : r ∈ l) :
    ∃ s ∈ l.foldl insertOnConflictDoNothing cur, s.key = r.key := by
  induction l generalizing cur with
  | nil => cases hr
  | cons a rest ih =>
    rcases List.mem_cons.mp hr with heq | hmem
    · subst heq
      by_cases h : cur.any (fun s => s.key == r.key)
      · obtain ⟨s, hs, hks⟩ := List.any_eq_true.mp h
        refine ⟨s, ?_, by simpa using hks⟩
        refine foldl_insert_mono _ rest s ?_
        rw [insertOnConflictDoNothing, if_pos h]
        exact hs
      · refine ⟨r, ?_, rfl⟩
        refine foldl_insert_mono _ rest r ?_
        rw [insertOnConflictDoNothing, if_neg h]
        exact List.mem_append_right _ (List.mem_singleton.mpr rfl)
    · exact ih _ hmem

/-- A batch whose keys are all already present inserts nothing. -/
lemma foldl_insert_noop (cur : List Row) (l : List Row)
    (h : ∀ r ∈ l, ∃ s ∈ cur, s.key = r.key) :
    l.foldl insertOnConflictDoNothing cur = cur := by
  induction l with
  | nil => rfl
  | cons r rest ih =>
    obtain ⟨s, hs, hk⟩ := h r (List.mem_cons_self r rest)
    have hany : cur.any (fun s => s.key == r.key) = true :=
      List.any_eq_true.mpr ⟨s, hs, by simpa using hk⟩
    rw [List.foldl_cons, insertOnConflictDoNothing, if_pos hany]
    exact ih (fun a ha => h a (List.mem_cons_of_mem r ha))

/-- Conflict-skipping inserts preserve key uniqueness. -/
lemma foldl_insert_nodup (cur : List Row) (l : List Row)
    (h : (cur.map Row.key).Nodup) :
    ((l.foldl insertOnConflictDoNothing cur).map Row.key).Nodup := by
  induction l generalizing cur with
  | nil => exact h
  | cons r rest ih =>
    refine ih (insertOnConflictDoNothing cur r) ?_
    rw [insertOnConflictDoNothing]
    split_ifs with hany
    · exact h
    · rw [List.map_append]
      rw [List.nodup_append]
      refine ⟨h, List.nodup_singleton _, ?_⟩
      intro x hx hx'
      have hkey : x = r.key := by simpa using hx'
      subst hkey
      obtain ⟨s, hs, hks⟩ := List.mem_map.mp hx
      have : cur.any (fun s => s.key == r.key) = true :=
        List.any_eq_true.mpr ⟨s, hs, by simp [hks]⟩
      simp [this] at hany

/-! ## C3: the missing-partition retry -/

set_option maxRecDepth 8000 in
/-- C3 counterexample: a two-row batch in one 1000-row chunk, with a row
of February 1970 (provisionable) and a row with timestamp `0` (whose
month the provisioner always rejects).  The chunk fails, is retried once
after re-provisioning, fails again — and the entire call returns 0 with
the transaction rolled back: the February row, though its month is fine,
is not stored.  Rows of other months do not survive a sibling sub-batch's
hard failure. -/
theorem batch_insert_data_sibling_month_lost :
    batch_insert_data ⟨[], []⟩ "klines"
      [⟨3000000000, 1, 10⟩, ⟨0, 2, 20⟩] 1000
      = (⟨["klines_1970_02"], []⟩, 0) := by decide

/-- C3 (amended): on a "no partition of relation" failure the writer
re-provisions the failing 1000-row chunk's months and resubmits that
chunk exactly once (the ghost retry counter increases by exactly one and
the loop stops); a second failure of the same chunk aborts the entire
call — the transaction is rolled back, so no rows are committed
(including rows of other, successfully provisioned months) and the call
returns 0 instead of surfacing the failing sub-batch. -/
theorem batch_insert_data_one_retry_then_abort (table : String) :
    (∀ (parts : List String) (cur : List Row) (n k : Nat) (chunk : List Row)
        (rest : List (List Row)),
      (executeBatch parts table cur chunk).2 = false →
      (auto_create_partitions_for_data parts table (dfOfRows table chunk)
        (some (timeColumnOf table))).2 = true →
      (executeBatch
        (auto_create_partitions_for_data parts table (dfOfRows table chunk)
          (some (timeColumnOf table))).1
        table (executeBatch parts table cur chunk).1 chunk).2 = false →
      processChunks table parts cur n k (chunk :: rest)
        = ((auto_create_partitions_for_data parts table (dfOfRows table chunk)
              (some (timeColumnOf table))).1,
           (executeBatch
             (auto_create_partitions_for_data parts table
               (dfOfRows table chunk) (some (timeColumnOf table))).1
             table (executeBatch parts table cur chunk).1 chunk).1,
           n, k + 1, false)) ∧
    (∀ (st : Store) (df : List Row) (bs : Nat),
      (processChunks table (prePartsOf st table df) st.rows 0 0
        (chunksOf bs df)).2.2.2.2 = false →
      batch_insert_data st table df bs
        = ({ parts := (processChunks table (prePartsOf st table df) st.rows 0 0
               (chunksOf bs df)).1,
             rows := st.rows }, 0)) := by
  constructor
  · intro parts cur n k chunk rest h1 hpr h2
    rw [processChunks]
    simp only [h1, Bool.false_eq_true, if_false, hpr, if_true, h2]
  · intro st df bs hflag
    rw [batch_insert_data]
    simp only [hflag, Bool.false_eq_true, if_false]

set_option maxRecDepth 8000 in
/-- Witness for C3's amended theorem at the concrete two-month batch of
`batch_insert_data_sibling_month_lost`. -/
theorem batch_insert_data_one_retry_then_abort_witness :
    (processChunks "klines"
        (prePartsOf ⟨[], []⟩ "klines" [⟨3000000000, 1, 10⟩, ⟨0, 2, 20⟩])
        (Store.mk [] []).rows 0 0
        (chunksOf 1000 [⟨3000000000, 1, 10⟩, ⟨0, 2, 20⟩])).2.2.2.2 = false ∧
    batch_insert_data ⟨[], []⟩ "klines"
        [⟨3000000000, 1, 10⟩, ⟨0, 2, 20⟩] 1000
      = ({ parts := (processChunks "klines"
             (prePartsOf ⟨[], []⟩ "klines" [⟨3000000000, 1, 10⟩, ⟨0, 2, 20⟩])
             (Store.mk [] []).rows 0 0
             (chunksOf 1000 [⟨3000000000, 1, 10⟩, ⟨0, 2, 20⟩])).1,
           rows := (Store.mk [] []).rows }, 0) :=
  ⟨by decide,
   (batch_insert_data_one_retry_then_abort "klines").2 ⟨[], []⟩
     [⟨3000000000, 1, 10⟩, ⟨0, 2, 20⟩] 1000 (by decide)⟩

/-! ## C4: the returned row count -/

set_option maxRecDepth 8000 in
/-- C4 counterexample: a one-row batch whose row conflicts with an
already-stored row on the uniqueness key.  Storage is unchanged (0 rows
actually written), yet the call returns 1 — the return value is the
submitted count, not the number of rows actually written. -/
theorem batch_insert_data_overcounts_on_conflict :
    batch_insert_data ⟨["klines_1970_02"], [⟨3000000000, 1, 10⟩]⟩ "klines"
      [⟨3000000001, 1, 99⟩] 1000
      = (⟨["klines_1970_02"], [⟨3000000000, 1, 10⟩]⟩, 1) := by decide

/-- C4 (amended): on a successful write of a valid batch,
`batch_insert_data` returns the number of rows submitted — the full input
length — counting rows skipped by the uniqueness-conflict policy as if
written; conflict-skipping causes no error, but the shortfall of actually
written rows is not reflected in the return value. -/
theorem batch_insert_data_returns_submitted (st : Store) (table : String)
    (df : List Row) (bs : Nat) (hbs : 1 ≤ bs)
    (htab : isPartitionedTable table = true)
    (hvalid : ∀ r ∈ df, 0 < r.ts ∧ r.ts ≤ 9999999999999) :
    (batch_insert_data st table df bs).2 = df.length ∧
    (batch_insert_data st table df bs).1.rows
      = df.foldl insertOnConflictDoNothing st.rows := by
  rw [batch_insert_data_success st table df bs hbs htab hvalid]
  exact ⟨rfl, rfl⟩

/-- Witness for C4's amended theorem at the conflicting one-row batch. -/
theorem batch_insert_data_returns_submitted_witness :
    (1 ≤ 1000 ∧ isPartitionedTable "klines" = true ∧
      ∀ r ∈ [(⟨3000000001, 1, 99⟩ : Row)],
        0 < r.ts ∧ r.ts ≤ 9999999999999) ∧
    ((batch_insert_data ⟨["klines_1970_02"], [⟨3000000000, 1, 10⟩]⟩ "klines"
        [⟨3000000001, 1, 99⟩] 1000).2 = [(⟨3000000001, 1, 99⟩ : Row)].length ∧
     (batch_insert_data ⟨["klines_1970_02"], [⟨3000000000, 1, 10⟩]⟩ "klines"
        [⟨3000000001, 1, 99⟩] 1000).1.rows
       = [(⟨3000000001, 1, 99⟩ : Row)].foldl insertOnConflictDoNothing
           (Store.mk ["klines_1970_02"] [⟨3000000000, 1, 10⟩]).rows) :=
  ⟨⟨by decide, by decide, by decide⟩,
   batch_insert_data_returns_submitted
     ⟨["klines_1970_02"], [⟨3000000000, 1, 10⟩]⟩ "klines"
     [⟨3000000001, 1, 99⟩] 1000 (by decide) (by decide) (by decide)⟩

/-! ## C7: row-level idempotence of the bulk write -/

/-- C7: rows conflicting on the uniqueness key are silently skipped —
never an error, never an overwrite — so writing the same batch twice
leaves exactly the rows of the first write in storage, with no duplicate
keys; both writes complete successfully. -/
theorem batch_insert_data_idempotent (st : Store) (table : String)
    (df : List Row) (bs : Nat) (hbs : 1 ≤ bs)
    (htab : isPartitionedTable table = true)
    (hvalid : ∀ r ∈ df, 0 < r.ts ∧ r.ts ≤ 9999999999999)
    (hnodup : (st.rows.map Row.key).Nodup) :
    (batch_insert_data (batch_insert_data st table df bs).1 table df bs).1.rows
      = (batch_insert_data st table df bs).1.rows ∧
    ((batch_insert_data st table df bs).1.rows.map Row.key).Nodup ∧
    (batch_insert_data st table df bs).2 = df.length ∧
    (batch_insert_data (batch_insert_data st table df bs).1 table df bs).2
      = df.length := by
  have h1 := batch_insert_data_success st table df bs hbs htab hvalid
  have hrows1 : (batch_insert_data st table df bs).1.rows
      = df.foldl insertOnConflictDoNothing st.rows := by rw [h1]
  have h2 := batch_insert_data_success (batch_insert_data st table df bs).1
    table df bs hbs htab hvalid
  have hnoop : df.foldl insertOnConflictDoNothing
      (batch_insert_data st table df bs).1.rows
      = (batch_insert_data st table df bs).1.rows := by
    apply foldl_insert_noop
    intro r hr
    rw [hrows1]
    exact foldl_insert_key_present st.rows df r hr
  refine ⟨?_, ?_, ?_, ?_⟩
  · rw [h2]
    exact hnoop
  · rw [hrows1]
    exact foldl_insert_nodup st.rows df hnodup
  · rw [h1]
  · rw [h2]

/-- Witness for C7 at a two-row batch over the empty store. -/
theorem batch_insert_data_idempotent_witness :
    (1 ≤ 1000 ∧ isPartitionedTable "klines" = true ∧
      (∀ r ∈ [(⟨3000000000, 1, 10⟩ : Row), ⟨3000000001, 2, 20⟩],
        0 < r.ts ∧ r.ts ≤ 9999999999999) ∧
      ((Store.mk [] []).rows.map Row.key).Nodup) ∧
    ((batch_insert_data
        (batch_insert_data ⟨[], []⟩ "klines"
          [⟨3000000000, 1, 10⟩, ⟨3000000001, 2, 20⟩] 1000).1 "klines"
        [⟨3000000000, 1, 10⟩, ⟨3000000001, 2, 20⟩] 1000).1.rows
       = (batch_insert_data ⟨[], []⟩ "klines"
           [⟨3000000000, 1, 10⟩, ⟨3000000001, 2, 20⟩] 1000).1.rows ∧
     ((batch_insert_data ⟨[], []⟩ "klines"
        [⟨3000000000, 1, 10⟩, ⟨3000000001, 2, 20⟩] 1000).1.rows.map
          Row.key).Nodup ∧
     (batch_insert_data ⟨[], []⟩ "klines"
        [⟨3000000000, 1, 10⟩, ⟨3000000001, 2, 20⟩] 1000).2
       = [(⟨3000000000, 1, 10⟩ : Row), ⟨3000000001, 2, 20⟩].length ∧
     (batch_insert_data
        (batch_insert_data ⟨[], []⟩ "klines"
          [⟨3000000000, 1, 10⟩, ⟨3000000001, 2, 20⟩] 1000).1 "klines"
        [⟨3000000000, 1, 10⟩, ⟨3000000001, 2, 20⟩] 1000).2
       = [(⟨3000000000, 1, 10⟩ : Row), ⟨3000000001, 2, 20⟩].length) :=
  ⟨⟨by decide, by decide, by decide, by decide⟩,
   batch_insert_data_idempotent ⟨[], []⟩ "klines"
     [⟨3000000000, 1, 10⟩, ⟨3000000001, 2, 20⟩] 1000
     (by decide) (by decide) (by decide) (by decide)⟩

/-! ## C5: the normalizer's null policy -/

/-- C5 counterexample: a two-row `trading_metrics` batch whose second row
has a null required `create_time`: `prepare_data_by_type` rejects the
WHOLE batch (`None`), it does not continue with a batch reduced by one
row. -/
theorem prepare_data_by_type_metrics_rejects_whole_batch :
    prepare_data_by_type_metrics
      [⟨some 1000, some 5⟩, ⟨none, some 3⟩] = none ∧
    prepare_data_by_type_metrics
      [⟨some 1000, some 5⟩, ⟨none, some 3⟩]
      ≠ some [⟨some 1000, some 5⟩] := by
  constructor
  · rfl
  · intro h
    cases h

/-- C5 (amended): in the `trading_metrics` normalization, a row missing
an optional numeric field is retained with that field filled with 0.0,
but a required `create_time` still null after coercion rejects the whole
batch — `prepare_data_by_type` returns `None` (and `batch_insert_data`'s
pre-insert check likewise returns 0) without raising; rows are never
rejected individually. -/
theorem prepare_data_by_type_metrics_null_policy (rows : List RawMetricsRow)
    (hne : rows ≠ []) :
    ((∃ r ∈ rows, r.create_time = none) →
      prepare_data_by_type_metrics rows = none) ∧
    ((∀ r ∈ rows, r.create_time ≠ none) →
      prepare_data_by_type_metrics rows
        = some (rows.map fillMetricsRow)) := by
  constructor
  · rintro ⟨r, hr, hnone⟩
    rw [prepare_data_by_type_metrics]
    have hany : (rows.map fillMetricsRow).any
        (fun r => r.create_time.isNone) = true := by
      refine List.any_eq_true.mpr
        ⟨fillMetricsRow r, List.mem_map.mpr ⟨r, hr, rfl⟩, ?_⟩
      simp [fillMetricsRow, hnone]
    simp [hany]
  · intro hall
    rw [prepare_data_by_type_metrics]
    have hany : (rows.map fillMetricsRow).any
        (fun r => r.create_time.isNone) = false := by
      rw [Bool.eq_false_iff]
      intro hcon
      obtain ⟨x, hx, hxn⟩ := List.any_eq_true.mp hcon
      obtain ⟨r, hr, hrx⟩ := List.mem_map.mp hx
      apply hall r hr
      have hct : x.create_time = r.create_time := by
        rw [← hrx]
        rfl
      rw [Option.isNone_iff_eq_none, hct] at hxn
      exact hxn
    have hemp : (rows.map fillMetricsRow).isEmpty = false := by
      rw [List.isEmpty_eq_false]
      simpa using hne
    simp [hany, hemp]

/-- Witness for C5's amended theorem at a one-row batch with a missing
optional numeric field. -/
theorem prepare_data_by_type_metrics_null_policy_witness :
    (([⟨some 1000, none⟩] : List RawMetricsRow) ≠ [] ∧
      ∀ r ∈ ([⟨some 1000, none⟩] : List RawMetricsRow),
        r.create_time ≠ none) ∧
    prepare_data_by_type_metrics [⟨some 1000, none⟩]
      = some ([⟨some 1000, none⟩].map fillMetricsRow) := by
  have hall : ∀ r ∈ ([⟨some 1000, none⟩] : List RawMetricsRow),
      r.create_time ≠ none := by
    intro r hr
    rcases List.mem_singleton.mp hr with rfl
    simp
  refine ⟨⟨?_, hall⟩, ?_⟩
  · intro h
    cases h
  · exact (prepare_data_by_type_metrics_null_policy
      [⟨some 1000, none⟩] (by intro h; cases h)).2 hall

/-! ## C8: orchestrator fault tolerance -/

/-- Filtering a list by a predicate and its negation partitions it. -/
lemma filter_partition_length (p : String → Bool) (l : List String) :
    (l.filter p).length + (l.filter (fun x => !(p x))).length = l.length := by
  induction l with
  | nil => rfl
  | cons a rest ih =>
    rcases h : p a with _ | _ <;>
      simp [List.filter_cons, h] <;> omega

/-- Unfolding of the orchestrator's aggregation loop. -/
lemma recordResult_foldl (outcome : String → FileOutcome) :
    ∀ (l : List String) (acc : RunSummary),
      l.foldl (fun a f => recordResult a f (outcome f)) acc
        = ⟨acc.successful_imports
             + (l.filter (fun f => outcome f == FileOutcome.ok)).length,
           acc.failed_imports
             + (l.filter (fun f => !(outcome f == FileOutcome.ok))).length,
           acc.failed_files
             ++ l.filter (fun f => !(outcome f == FileOutcome.ok))⟩ := by
  intro l
  induction l with
  | nil =>
    intro acc
    cases acc
    simp
  | cons f rest ih =>
    intro acc
    rw [List.foldl_cons, ih]
    rcases ho : outcome f with _ | _ | msg <;>
      simp [recordResult, List.filter_cons, ho] <;>
      omega

/-- C8: `import_directory` converts every per-file outcome — including an
exception escaping a worker — into counts and a failed-file list covering
every deduplicated file, so the run never aborts on a single file; and a
directory that cannot be enumerated (empty glob result) yields the
zero-file summary rather than an exception. -/
theorem import_directory_fault_tolerant (files : List String)
    (outcome : String → FileOutcome) :
    (import_directory files outcome).successful_imports
      = ((files.dedup).filter (fun f => outcome f == FileOutcome.ok)).length ∧
    (import_directory files outcome).failed_imports
      = ((files.dedup).filter
          (fun f => !(outcome f == FileOutcome.ok))).length ∧
    (import_directory files outcome).failed_files
      = (files.dedup).filter (fun f => !(outcome f == FileOutcome.ok)) ∧
    (import_directory files outcome).successful_imports
        + (import_directory files outcome).failed_imports
      = (files.dedup).length ∧
    import_directory [] outcome = ⟨0, 0, []⟩ := by
  have hpart := filter_partition_length
    (fun f => outcome f == FileOutcome.ok) files.dedup
  by_cases hd : (files.dedup).isEmpty
  · have hnil : files.dedup = [] := List.isEmpty_iff.mp hd
    rw [import_directory]
    simp [hd, hnil, import_directory]
  · rw [import_directory]
    simp only [hd, Bool.false_eq_true, if_false]
    rw [recordResult_foldl]
    refine ⟨by simp, by simp, by simp, ?_, by simp [import_directory]⟩
    simp only []
    simpa using hpart

end BinanceIngest
